import Mathlib

/-!
Shallow embedding of the two entry points of the spreadFut repository:
`src/Binance/fetch_pairs.py` (file variant) and
`src/Binance/fetch_usdt_perpetual_pairs.py` (console variant).

Strings are Lean `String`s; Python's string comparison (lexicographic on
code points) is embedded as the executable `charsLe` and proved equivalent
to Mathlib's order on `String`.  JSON records are embedded as structures
with `Option` fields (a missing key is `none`).  Fallible Python
expressions are embedded in `Except`.  The network phase of each program
is an external input: each `main` is modelled as a function of the outcome
of the HTTP-and-decode step.
-/

namespace SpreadFut

/-- Python runtime errors raised by the embedded code fragments. -/
inductive PyErr where
  | indexError
  | keyError
deriving DecidableEq

/-- Exceptions the file variant's network-and-decode phase can raise:
`urllib.error.URLError` (transport failure), `urllib.error.HTTPError`
(non-success HTTP status), or `json.JSONDecodeError` (body is not valid
JSON). -/
inductive FileFetchErr where
  | urlError
  | httpError
  | jsonDecodeError
deriving DecidableEq

/-- Exceptions the console variant's `fetch_exchange_info` can raise:
`URLError`, `HTTPError`, the explicit `RuntimeError` on a non-200 status,
or `json.JSONDecodeError`. -/
inductive ConsoleFetchErr where
  | urlError
  | httpError
  | statusRuntimeError
  | jsonDecodeError
deriving DecidableEq

/-- One record of the payload's `symbols` array; each field is `none` when
the corresponding key is missing from the JSON object. -/
structure SymbolInfo where
  symbol : Option String
  contractType : Option String
  quoteAsset : Option String
deriving DecidableEq

/-- The decoded exchangeInfo payload; `symbols` is `none` when the
top-level `symbols` key is missing. -/
structure Payload where
  symbols : Option (List SymbolInfo)
deriving DecidableEq

/-! ### Python string comparison

Python compares strings lexicographically by Unicode code points.
`charsLe` is that comparison on the underlying character lists, written as
an executable boolean function. -/

/-- Code-point lexicographic comparison of character lists, as Python
compares strings. -/
def charsLe : List Char → List Char → Bool
  | [], _ => true
  | _ :: _, [] => false
  | c :: cs, d :: ds =>
    if c.toNat < d.toNat then true
    else if d.toNat < c.toNat then false
    else charsLe cs ds

/-- Python's `a <= b` on strings. -/
def lexLe (a b : String) : Prop := charsLe a.data b.data = true

instance : DecidableRel lexLe := fun a b => by
  unfold lexLe
  infer_instance

/-! ### The sort key and the sorts

Both scripts sort with `sorted(values, key=lambda item: (item[0].isdigit(), item))`.
CPython first computes the key of every element (in list order, so an
`IndexError` on an empty string propagates), then sorts the decorated list
by the key tuples, comparing `(bool, str)` lexicographically with
`False < True`. -/

/-- First character's digit test, total version used to state properties;
defaults to a non-digit on the empty string. -/
def firstIsDigit (s : String) : Bool := (s.data.headD 'A').isDigit

/-- The key `lambda item: (item[0].isdigit(), item)`; `item[0]` raises
`IndexError` on the empty string. -/
def symbolKey (item : String) : Except PyErr (Bool × String) :=
  match item.data with
  | [] => .error .indexError
  | c :: _ => .ok (c.isDigit, item)

/-- The key of a string, in total form. -/
def skey (s : String) : Bool × String := (firstIsDigit s, s)

/-- A string paired with its key, as CPython decorates before sorting. -/
def decorate (s : String) : (Bool × String) × String := (skey s, s)

/-- Decoration pass of `sorted`: compute every element's key, propagating
the first `IndexError` in list order. -/
def keyedList : List String → Except PyErr (List ((Bool × String) × String))
  | [] => .ok []
  | item :: rest => do
    let k ← symbolKey item
    let ks ← keyedList rest
    pure ((k, item) :: ks)

/-- Python's ordering on the key tuples `(bool, str)`: lexicographic, with
`False < True` and strings compared by code points. -/
def keyLe (a b : Bool × String) : Prop :=
  (!a.1 && b.1) = true ∨ (a.1 = b.1 ∧ lexLe a.2 b.2)

instance : DecidableRel keyLe := fun a b => by
  unfold keyLe
  infer_instance

/-- Ordering of decorated elements: compare the keys. -/
def keyedLe (a b : (Bool × String) × String) : Prop := keyLe a.1 b.1

instance : DecidableRel keyedLe := fun a b => by
  unfold keyedLe keyLe
  infer_instance

/-- `custom_sort` of fetch_pairs.py:
`sorted(values, key=lambda item: (item[0].isdigit(), item))`.
Decorate, stable-sort by key, undecorate. -/
def custom_sort (values : List String) : Except PyErr (List String) := do
  let keyed ← keyedList values
  pure ((List.insertionSort keyedLe keyed).map Prod.snd)

/-- `sort_symbols` of fetch_usdt_perpetual_pairs.py:
`sorted(symbols, key=lambda s: (s[0].isdigit(), s))` - the same code as
`custom_sort`, written in that file. -/
def sort_symbols (symbols : List String) : Except PyErr (List String) := do
  let keyed ← keyedList symbols
  pure ((List.insertionSort keyedLe keyed).map Prod.snd)

/-! ### Extraction -/

/-- The list comprehension inside `fetch_symbols` of fetch_pairs.py:
`[info["symbol"] for info in records if info.get("contractType") == "PERPETUAL"
and info.get("quoteAsset") == "USDT"]`.  The subscript `info["symbol"]`
raises `KeyError` when the field is missing from a qualifying record. -/
def symbolsComprehension : List SymbolInfo → Except PyErr (List String)
  | [] => .ok []
  | info :: rest =>
    if info.contractType = some "PERPETUAL" ∧ info.quoteAsset = some "USDT" then
      match info.symbol with
      | none => .error .keyError
      | some s => do
        let tail ← symbolsComprehension rest
        pure (s :: tail)
    else symbolsComprehension rest

/-- Python's plain `sorted` on distinct strings: sort by code-point order. -/
def plainSorted (symbols : List String) : List String :=
  List.insertionSort lexLe symbols

/-- The JSON-processing part of `fetch_symbols` of fetch_pairs.py, given
the decoded payload: `payload["symbols"]` (a `KeyError` when absent), the
filtering comprehension, then `sorted(set(symbols))`. -/
def fetch_symbols (payload : Payload) : Except PyErr (List String) :=
  match payload.symbols with
  | none => .error .keyError
  | some records => do
    let symbols ← symbolsComprehension records
    pure (plainSorted symbols.dedup)

/-- The loop body of `extract_usdt_perpetual_symbols`: skip a record
unless `contractType == "PERPETUAL"`, skip unless `quoteAsset == "USDT"`,
then `symbol = info.get("symbol")` and `if symbol:` - a missing symbol
(`None`) or an empty string is falsy and the record is skipped. -/
def extractLoop : List SymbolInfo → List String
  | [] => []
  | info :: rest =>
    if info.contractType ≠ some "PERPETUAL" then extractLoop rest
    else if info.quoteAsset ≠ some "USDT" then extractLoop rest
    else
      match info.symbol with
      | none => extractLoop rest
      | some s => if s = "" then extractLoop rest else s :: extractLoop rest

/-- `extract_usdt_perpetual_symbols` of fetch_usdt_perpetual_pairs.py:
`payload.get("symbols", [])` followed by the filtering loop. -/
def extract_usdt_perpetual_symbols (payload : Payload) : List String :=
  extractLoop (payload.symbols.getD [])

/-- The test a record has to pass to contribute its symbol in the console
variant, as an optional projection; used to characterise `extractLoop` as
an order- and multiplicity-preserving `filterMap`. -/
def qualifies (info : SymbolInfo) : Option String :=
  if info.contractType = some "PERPETUAL" ∧ info.quoteAsset = some "USDT" then
    match info.symbol with
    | none => none
    | some s => if s = "" then none else some s
  else none

/-! ### The file variant's `main` -/

/-- `CACHED_SYMBOLS` of fetch_pairs.py, transcribed verbatim. -/
def CACHED_SYMBOLS : List String := [
    "ACE", "ACM", "AAVE", "ACH", "ADA", "ADX", "AEVO", "AERGO", "AGIX", "AGLD",
    "AIOZ", "AKRO", "ALGO", "ALICE", "ALPACA", "ALPHA", "ALPINE", "ALT", "AMB",
    "ANKR", "ANT", "APE", "API3", "APT", "AR", "ARB", "ARK", "ARKM", "ARPA",
    "ASR", "ASTR", "ATA", "ATM", "ATOM", "AUCTION", "AUDIO", "AVA", "AVAX",
    "AXS", "BADGER", "BAKE", "BAL", "BAND", "BAR", "BCH", "BEAMX", "BEL",
    "BETA", "BICO", "BIGTIME", "BLUR", "BLZ", "BNB", "BNX", "BOME", "BOND",
    "BSV", "BTC", "BTCDOM", "BTTC", "C98", "CAKE", "CELO", "CELR", "CFX",
    "CHR", "CHZ", "CHESS", "CITY", "CKB", "COCOS", "COMBO", "COMP", "COTI",
    "CRV", "CSPR", "CTK", "CTSI", "CVC", "CVX", "CYBER", "DAR", "DASH",
    "DEFI", "DEXE", "DENT", "DGB", "DODO", "DOGE", "DOT", "DUSK", "DYDX",
    "DYM", "EDU", "EGLD", "ENA", "ENJ", "ENS", "EOS", "ETC", "ETH",
    "ETHFI", "FET", "FIDA", "FIL", "FLM", "FLOW", "FLR", "FOOTBALL",
    "FRONT", "FTM", "FXS", "GALA", "GAL", "GAS", "GF", "GFT", "GLMR", "GMT",
    "GMX", "GRT", "GTC", "HBAR", "HFT", "HIFI", "HIGH", "HNT", "HOOK", "HOT",
    "ICP", "ICX", "ID", "ILV", "IMX", "INJ", "IOST", "IOTA", "IOTX",
    "JASMY", "JOE", "JTO", "JUP", "JUV", "KAS", "KAVA", "KEY", "KLAY",
    "KNC", "KSM", "LAZIO", "LDO", "LEVER", "LINA", "LINK", "LISTA", "LIT",
    "LOOKS", "LOKA", "LOOM", "LPT", "LQTY", "LRC", "LTC", "LTO", "LUNA2",
    "LUNC", "MAGIC", "MANTA", "MANA", "MASK", "MATIC", "MAV", "MAVIA", "MBOX",
    "MDT", "MEME", "MINA", "MKR", "MTL", "NEAR", "NEO", "NFP", "NKN", "NMR",
    "NOT", "NTRN", "OCEAN", "OG", "OMG", "OM", "OMNI", "ONDO", "ONT", "OP",
    "ORDI", "PAXG", "PEOPLE", "PEPE", "PENDLE", "PERP", "PHA", "PHB", "PIXEL",
    "PLA", "POL", "POLYX", "POLS", "POND", "PORTAL", "PORTO", "POWR", "PROM",
    "PSG", "PYTH", "QI", "QNT", "QTUM", "RAD", "RAY", "RDNT", "REI", "REEF",
    "REN", "RLC", "RNDR", "ROSE", "RPL", "RBN", "RSR", "RUNE", "RVN", "SAGA",
    "SAND", "SANTOS", "SC", "SEI", "SFP", "SHIB", "SKL", "SLP", "SNX", "SOL",
    "SPELL", "SSV", "STG", "STMX", "STORJ", "STPT", "STRAX", "STRK", "STX",
    "SUI", "SUN", "SUPER", "SUSHI", "SXP", "SYN", "TAO", "T", "THETA", "TIA",
    "TLM", "TNSR", "TOMO", "TON", "TRB", "TRU", "TRX", "TURBO", "TWT", "UMA",
    "UNFI", "UNI", "USDC", "UTK", "VANRY", "VET", "VOXEL", "WAVES", "WIF",
    "WLD", "WOO", "XAI", "XEC", "XEM", "XLM", "XRP", "XTZ", "XVG", "XVS",
    "YFI", "YGG", "ZEC", "ZEN", "ZETA", "ZIL", "ZK", "ZRO", "ZRX",
    "1000BONK", "1000FLOKI", "1000LUNC", "1000PEPE", "1000SATS", "1000SHIB",
    "1INCH"]

/-- Observable result of one run of the file variant's `main`: either the
sorted list written to pairs.json (with a flag recording whether the
fallback warning was printed), or a crash from an uncaught exception. -/
inductive FileOutcome where
  | wrote (symbols : List String) (warned : Bool)
  | crashed (e : FileFetchErr ⊕ PyErr)
deriving DecidableEq

/-- Process exit status of the file variant: 0 on a completed write, 1 on
an uncaught exception. -/
def file_exit : FileOutcome → Nat
  | .wrote _ _ => 0
  | .crashed _ => 1

/-- The `except` branch of the file variant's `main`: print the warning,
take `CACHED_SYMBOLS.copy()`, then the final `custom_sort` before the
write. -/
def mainFallback : FileOutcome :=
  match custom_sort CACHED_SYMBOLS with
  | .error e => .crashed (.inr e)
  | .ok out => .wrote out true

/-- `main` of fetch_pairs.py as a function of the fetch phase's outcome.
The `except` clause catches only `URLError` and `HTTPError`; a
`json.JSONDecodeError` and any `KeyError`/`IndexError` from the extraction
or the sorts propagate and crash the process.  On the success path the
`else` branch sorts once and the line after the `try` statement sorts
again. -/
def main_file (net : Except FileFetchErr Payload) : FileOutcome :=
  match net with
  | .error .urlError => mainFallback
  | .error .httpError => mainFallback
  | .error .jsonDecodeError => .crashed (.inl .jsonDecodeError)
  | .ok payload =>
    match fetch_symbols payload with
    | .error e => .crashed (.inr e)
    | .ok symbols =>
      match custom_sort symbols with
      | .error e => .crashed (.inr e)
      | .ok once =>
        match custom_sort once with
        | .error e => .crashed (.inr e)
        | .ok twice => .wrote twice false

/-! ### The console variant's `main` -/

/-- Observable result of one run of the console variant's `main`. -/
inductive ConsoleOutcome where
  | printed (lines : List String)
  | failed
  | crashed (e : PyErr)
deriving DecidableEq

/-- Process exit status of the console variant: 0 after printing, 1 via
`sys.exit(1)` in the handler, 1 on an uncaught exception. -/
def console_exit : ConsoleOutcome → Nat
  | .printed _ => 0
  | .failed => 1
  | .crashed _ => 1

/-- Symbol lines written to standard output. -/
def console_stdout : ConsoleOutcome → List String
  | .printed lines => lines
  | .failed => []
  | .crashed _ => []

/-- Whether the handler's message `Failed to retrieve symbols: ...` was
written to standard error. -/
def console_error_reported : ConsoleOutcome → Bool
  | .printed _ => false
  | .failed => true
  | .crashed _ => false

/-- `main` of fetch_usdt_perpetual_pairs.py as a function of the fetch
phase's outcome.  The `except` clause catches `URLError` (hence also
`HTTPError`), `RuntimeError` and `json.JSONDecodeError`, prints to stderr
and calls `sys.exit(1)`; on success the extracted symbols are sorted and
printed one per line. -/
def main_console (net : Except ConsoleFetchErr Payload) : ConsoleOutcome :=
  match net with
  | .error _ => .failed
  | .ok payload =>
    match sort_symbols (extract_usdt_perpetual_symbols payload) with
    | .error e => .crashed e
    | .ok lines => .printed lines

/-! ### Concrete payloads used by individual claims -/

/-- The end-to-end example payload of the spec's testable properties. -/
def examplePayload : Payload :=
  ⟨some [⟨some "BTCUSDT", some "PERPETUAL", some "USDT"⟩,
         ⟨some "1000PEPEUSDT", some "PERPETUAL", some "USDT"⟩,
         ⟨some "BTCUSD", some "PERPETUAL", some "USD"⟩]⟩

/-- A payload whose qualifying symbol appears twice. -/
def duplicatePayload : Payload :=
  ⟨some [⟨some "BTCUSDT", some "PERPETUAL", some "USDT"⟩,
         ⟨some "BTCUSDT", some "PERPETUAL", some "USDT"⟩]⟩

/-- A payload with one qualifying record whose `symbol` key is missing. -/
def missingSymbolPayload : Payload :=
  ⟨some [⟨none, some "PERPETUAL", some "USDT"⟩]⟩


/-! ## Order lemmas: `charsLe` agrees with Mathlib's lexicographic order -/

theorem char_lt_iff_toNat {c d : Char} : c < d ↔ c.toNat < d.toNat := Iff.rfl

theorem char_toNat_inj {c d : Char} (h : c.toNat = d.toNat) : c = d :=
  Char.eq_of_val_eq (UInt32.ext h)

theorem lex_cons_iff {a b : Char} {as bs : List Char} :
    List.Lex (· < ·) (b :: bs) (a :: as) ↔ b < a ∨ (b = a ∧ List.Lex (· < ·) bs as) := by
  constructor
  · intro h
    cases h with
    | cons h => exact Or.inr ⟨rfl, h⟩
    | rel h => exact Or.inl h
  · intro h
    rcases h with h | ⟨rfl, h⟩
    · exact List.Lex.rel h
    · exact List.Lex.cons h

theorem charsLe_iff_not_lex : ∀ (as bs : List Char),
    charsLe as bs = true ↔ ¬ List.Lex (· < ·) bs as
  | [], bs => by
    simp only [charsLe]
    constructor
    · intro _ h
      cases h
    · intro _
      trivial
  | a :: as, [] => by
    simp only [charsLe]
    constructor
    · intro h
      cases h
    · intro h
      exact absurd List.Lex.nil h
  | a :: as, b :: bs => by
    rw [lex_cons_iff]
    show (if a.toNat < b.toNat then true
          else if b.toNat < a.toNat then false else charsLe as bs) = true ↔ _
    by_cases h1 : a.toNat < b.toNat
    · simp only [if_pos h1, true_iff]
      intro hc
      rcases hc with hc | ⟨hc, _⟩
      · exact absurd (char_lt_iff_toNat.mp hc) (by omega)
      · exact absurd (congrArg Char.toNat hc) (by omega)
    · by_cases h2 : b.toNat < a.toNat
      · simp only [if_neg h1, if_pos h2]
        constructor
        · intro h
          cases h
        · intro h
          exact absurd (Or.inl (char_lt_iff_toNat.mpr h2)) h
      · have he : b = a := char_toNat_inj (by omega)
        subst he
        simp only [if_neg h1, if_neg h2, charsLe_iff_not_lex as bs]
        constructor
        · intro h hc
          rcases hc with hc | ⟨_, hc⟩
          · exact h2 (char_lt_iff_toNat.mp hc)
          · exact h hc
        · intro h hl
          exact h (Or.inr ⟨by trivial, hl⟩)

/-- The embedded Python comparison is exactly Mathlib's order on `String`. -/
theorem lexLe_iff_le {a b : String} : lexLe a b ↔ a ≤ b := by
  unfold lexLe
  rw [String.le_iff_toList_le, ← not_lt]
  exact charsLe_iff_not_lex a.data b.data

theorem lexLe_total (a b : String) : lexLe a b ∨ lexLe b a := by
  rcases le_total a b with h | h
  · exact Or.inl (lexLe_iff_le.mpr h)
  · exact Or.inr (lexLe_iff_le.mpr h)

theorem lexLe_trans {a b c : String} (h1 : lexLe a b) (h2 : lexLe b c) : lexLe a c :=
  lexLe_iff_le.mpr (le_trans (lexLe_iff_le.mp h1) (lexLe_iff_le.mp h2))

theorem bnot_and_eq_true {x y : Bool} : (!x && y) = true ↔ x = false ∧ y = true := by
  cases x <;> cases y <;> simp

theorem keyLe_total (a b : Bool × String) : keyLe a b ∨ keyLe b a := by
  unfold keyLe
  cases hab : a.1 <;> cases hbb : b.1
  · rcases lexLe_total a.2 b.2 with h | h
    · exact Or.inl (Or.inr ⟨rfl, h⟩)
    · exact Or.inr (Or.inr ⟨rfl, h⟩)
  · exact Or.inl (Or.inl rfl)
  · exact Or.inr (Or.inl rfl)
  · rcases lexLe_total a.2 b.2 with h | h
    · exact Or.inl (Or.inr ⟨rfl, h⟩)
    · exact Or.inr (Or.inr ⟨rfl, h⟩)

theorem keyLe_trans {a b c : Bool × String} (h1 : keyLe a b) (h2 : keyLe b c) :
    keyLe a c := by
  rcases h1 with h1 | ⟨h1e, h1s⟩
  · rcases bnot_and_eq_true.mp h1 with ⟨ha, hb⟩
    rcases h2 with h2 | ⟨h2e, _⟩
    · rcases bnot_and_eq_true.mp h2 with ⟨_, hc⟩
      exact Or.inl (bnot_and_eq_true.mpr ⟨ha, hc⟩)
    · exact Or.inl (bnot_and_eq_true.mpr ⟨ha, h2e ▸ hb⟩)
  · rcases h2 with h2 | ⟨h2e, h2s⟩
    · rcases bnot_and_eq_true.mp h2 with ⟨hb, hc⟩
      exact Or.inl (bnot_and_eq_true.mpr ⟨h1e.trans hb, hc⟩)
    · exact Or.inr ⟨h1e.trans h2e, lexLe_trans h1s h2s⟩

theorem keyedLe_isTotal : IsTotal ((Bool × String) × String) keyedLe :=
  ⟨fun a b => keyLe_total a.1 b.1⟩

theorem keyedLe_isTrans : IsTrans ((Bool × String) × String) keyedLe :=
  ⟨fun _ _ _ h1 h2 => keyLe_trans h1 h2⟩

/-! ## Sort machinery -/

theorem ne_empty_data {s : String} (h : s ≠ "") : s.data ≠ [] := by
  intro hd
  apply h
  obtain ⟨l⟩ := s
  cases hd
  rfl

theorem symbolKey_ok {s : String} (h : s ≠ "") : symbolKey s = .ok (skey s) := by
  unfold symbolKey skey firstIsDigit
  rcases hd : s.data with _ | ⟨c, cs⟩
  · exact absurd hd (ne_empty_data h)
  · rfl

theorem keyedList_eq : ∀ {values : List String}, (∀ s ∈ values, s ≠ "") →
    keyedList values = .ok (values.map decorate)
  | [], _ => rfl
  | item :: rest, h => by
    have hi : item ≠ "" := h item (List.mem_cons_self item rest)
    have hr : ∀ s ∈ rest, s ≠ "" := fun s hs => h s (List.mem_cons_of_mem item hs)
    unfold keyedList
    rw [symbolKey_ok hi, keyedList_eq hr]
    rfl

theorem custom_sort_eq {values : List String} (h : ∀ s ∈ values, s ≠ "") :
    custom_sort values =
      .ok ((List.insertionSort keyedLe (values.map decorate)).map Prod.snd) := by
  unfold custom_sort
  rw [keyedList_eq h]
  rfl

theorem sort_symbols_eq_custom_sort (values : List String) :
    sort_symbols values = custom_sort values := rfl

theorem mem_sorted_decorate {values : List String} {x : (Bool × String) × String}
    (hx : x ∈ List.insertionSort keyedLe (values.map decorate)) :
    x = decorate x.2 ∧ x.2 ∈ values := by
  rw [List.mem_insertionSort] at hx
  rcases List.mem_map.mp hx with ⟨s, hs, rfl⟩
  exact ⟨rfl, hs⟩

theorem pairwise_imp_mem {α : Type} {R S : α → α → Prop} :
    ∀ {l : List α}, (∀ a ∈ l, ∀ b ∈ l, R a b → S a b) → l.Pairwise R → l.Pairwise S
  | [], _, _ => List.Pairwise.nil
  | a :: t, hmem, hp => by
    rcases List.pairwise_cons.mp hp with ⟨ha, ht⟩
    refine List.Pairwise.cons ?_ (pairwise_imp_mem ?_ ht)
    · intro b hb
      exact hmem a (List.mem_cons_self a t) b (List.mem_cons_of_mem a hb) (ha b hb)
    · intro x hx y hy hr
      exact hmem x (List.mem_cons_of_mem a hx) y (List.mem_cons_of_mem a hy) hr

theorem custom_sort_pairwise (values : List String) :
    ((List.insertionSort keyedLe (values.map decorate)).map Prod.snd).Pairwise
      (fun s t => keyLe (skey s) (skey t)) := by
  have hs : (List.insertionSort keyedLe (values.map decorate)).Pairwise keyedLe :=
    @List.sorted_insertionSort _ keyedLe _ keyedLe_isTotal keyedLe_isTrans _
  rw [List.pairwise_map]
  refine pairwise_imp_mem ?_ hs
  intro a ha b hb hr
  have ha1 : a.1 = skey a.2 := congrArg Prod.fst (mem_sorted_decorate ha).1
  have hb1 : b.1 = skey b.2 := congrArg Prod.fst (mem_sorted_decorate hb).1
  show keyLe (skey a.2) (skey b.2)
  rw [← ha1, ← hb1]
  exact hr

theorem map_decorate_snd : ∀ {L : List ((Bool × String) × String)},
    (∀ x ∈ L, x = decorate x.2) → (L.map Prod.snd).map decorate = L
  | [], _ => rfl
  | x :: t, h => by
    simp only [List.map_cons]
    rw [map_decorate_snd (fun y hy => h y (List.mem_cons_of_mem x hy))]
    rw [← h x (List.mem_cons_self x t)]

theorem partition_of_pairwise_key {d : String → Bool} :
    ∀ {l : List String},
      l.Pairwise (fun s t => (!d s && d t) = true ∨ (d s = d t ∧ lexLe s t)) →
      ∃ p q, l = p ++ q ∧ (∀ s ∈ p, d s = false) ∧ (∀ s ∈ q, d s = true) ∧
        p.Pairwise (· ≤ ·) ∧ q.Pairwise (· ≤ ·)
  | [], _ => ⟨[], [], rfl, by simp, by simp, List.Pairwise.nil, List.Pairwise.nil⟩
  | a :: t, hp => by
    rcases List.pairwise_cons.mp hp with ⟨ha, ht⟩
    rcases partition_of_pairwise_key ht with ⟨p, q, hteq, hpf, hqt, hps, hqs⟩
    cases hda : d a
    · refine ⟨a :: p, q, by rw [hteq]; rfl, ?_, hqt, ?_, hqs⟩
      · intro s hs
        rcases List.mem_cons.mp hs with rfl | hs
        · exact hda
        · exact hpf s hs
      · refine List.Pairwise.cons ?_ hps
        intro s hs
        have hsmem : s ∈ t := hteq ▸ List.mem_append_left q hs
        rcases ha s hsmem with h | ⟨_, h⟩
        · rw [hda, hpf s hs] at h
          exact absurd h (by simp)
        · exact lexLe_iff_le.mp h
    · have hpnil : p = [] := by
        rcases hpc : p with _ | ⟨b, p2⟩
        · rfl
        · exfalso
          have hbp : b ∈ p := by rw [hpc]; exact List.mem_cons_self b p2
          have hbt : b ∈ t := hteq ▸ List.mem_append_left q hbp
          rcases ha b hbt with h | ⟨he, _⟩
          · rw [hda, hpf b hbp] at h
            exact absurd h (by simp)
          · rw [hda, hpf b hbp] at he
            exact absurd he (by simp)
      subst hpnil
      refine ⟨[], a :: q, by rw [hteq]; rfl, by simp, ?_, List.Pairwise.nil, ?_⟩
      · intro s hs
        rcases List.mem_cons.mp hs with rfl | hs
        · exact hda
        · exact hqt s hs
      · refine List.Pairwise.cons ?_ hqs
        intro s hs
        have hst : s ∈ t := hteq ▸ List.mem_append_right [] hs
        rcases ha s hst with h | ⟨_, h⟩
        · rw [hda] at h
          exact absurd h (by simp)
        · exact lexLe_iff_le.mp h

theorem mem_custom_sort_output {values : List String} {s : String}
    (hs : s ∈ (List.insertionSort keyedLe (values.map decorate)).map Prod.snd) :
    s ∈ values := by
  rcases List.mem_map.mp hs with ⟨x, hx, rfl⟩
  exact (mem_sorted_decorate hx).2

theorem custom_sort_fixed {values : List String} (h : ∀ s ∈ values, s ≠ "") :
    custom_sort ((List.insertionSort keyedLe (values.map decorate)).map Prod.snd) =
      .ok ((List.insertionSort keyedLe (values.map decorate)).map Prod.snd) := by
  have hmem : ∀ s ∈ (List.insertionSort keyedLe (values.map decorate)).map Prod.snd,
      s ≠ "" := fun s hs => h s (mem_custom_sort_output hs)
  rw [custom_sort_eq hmem]
  congr 1
  rw [map_decorate_snd (fun x hx => (mem_sorted_decorate hx).1)]
  rw [List.Sorted.insertionSort_eq
    (@List.sorted_insertionSort _ keyedLe _ keyedLe_isTotal keyedLe_isTrans
      (values.map decorate))]


/-! ## Extraction lemmas -/

theorem extractLoop_eq_filterMap : ∀ l : List SymbolInfo,
    extractLoop l = l.filterMap qualifies
  | [] => rfl
  | info :: rest => by
    rw [List.filterMap_cons]
    by_cases h1 : info.contractType = some "PERPETUAL"
    · by_cases h2 : info.quoteAsset = some "USDT"
      · rcases hsym : info.symbol with _ | s
        · simp [extractLoop, qualifies, h1, h2, hsym, extractLoop_eq_filterMap rest]
        · by_cases h3 : s = ""
          · simp [extractLoop, qualifies, h1, h2, hsym, h3, extractLoop_eq_filterMap rest]
          · simp [extractLoop, qualifies, h1, h2, hsym, h3, extractLoop_eq_filterMap rest]
      · simp [extractLoop, qualifies, h1, h2, extractLoop_eq_filterMap rest]
    · simp [extractLoop, qualifies, h1, extractLoop_eq_filterMap rest]

theorem qualifies_eq_some {info : SymbolInfo} {s : String} (h : qualifies info = some s) :
    info.contractType = some "PERPETUAL" ∧ info.quoteAsset = some "USDT" ∧
      info.symbol = some s ∧ s ≠ "" := by
  unfold qualifies at h
  split at h
  · rename_i hc
    rcases hsym : info.symbol with _ | v
    · rw [hsym] at h
      have h2 : (none : Option String) = some s := h
      cases h2
    · rw [hsym] at h
      have h2 : (if v = "" then none else some v) = some s := h
      by_cases hv : v = ""
      · rw [if_pos hv] at h2
        cases h2
      · rw [if_neg hv] at h2
        injection h2 with h2
        subst h2
        exact ⟨hc.1, hc.2, rfl, hv⟩
  · cases h

theorem qualifies_none_of_missing {info : SymbolInfo}
    (h : info.symbol = none ∨ info.contractType = none ∨ info.quoteAsset = none) :
    qualifies info = none := by
  unfold qualifies
  rcases h with h | h | h
  · split
    · rw [h]
    · rfl
  · rw [if_neg]
    intro hc
    rw [h] at hc
    exact Option.noConfusion hc.1
  · rw [if_neg]
    intro hc
    rw [h] at hc
    exact Option.noConfusion hc.2

theorem extractLoop_skip {info : SymbolInfo} (rest : List SymbolInfo)
    (h : info.symbol = none ∨ info.contractType = none ∨ info.quoteAsset = none) :
    extractLoop (info :: rest) = extractLoop rest := by
  rw [extractLoop_eq_filterMap, extractLoop_eq_filterMap, List.filterMap_cons,
    qualifies_none_of_missing h]

theorem mem_extract {payload : Payload} {s : String}
    (hs : s ∈ extract_usdt_perpetual_symbols payload) :
    ∃ info ∈ payload.symbols.getD [], info.contractType = some "PERPETUAL" ∧
      info.quoteAsset = some "USDT" ∧ info.symbol = some s ∧ s ≠ "" := by
  unfold extract_usdt_perpetual_symbols at hs
  rw [extractLoop_eq_filterMap] at hs
  rcases List.mem_filterMap.mp hs with ⟨info, hinfo, hq⟩
  rcases qualifies_eq_some hq with ⟨h1, h2, h3, h4⟩
  exact ⟨info, hinfo, h1, h2, h3, h4⟩

theorem symbolsComprehension_skip {info : SymbolInfo} (rest : List SymbolInfo)
    (h : info.contractType = none ∨ info.quoteAsset = none) :
    symbolsComprehension (info :: rest) = symbolsComprehension rest := by
  have hneg : ¬ (info.contractType = some "PERPETUAL" ∧ info.quoteAsset = some "USDT") := by
    intro hc
    rcases h with h | h
    · rw [h] at hc
      exact Option.noConfusion hc.1
    · rw [h] at hc
      exact Option.noConfusion hc.2
  rw [symbolsComprehension, if_neg hneg]

theorem symbolsComprehension_keyError {info : SymbolInfo} (rest : List SymbolInfo)
    (h1 : info.contractType = some "PERPETUAL") (h2 : info.quoteAsset = some "USDT")
    (h3 : info.symbol = none) :
    symbolsComprehension (info :: rest) = .error .keyError := by
  unfold symbolsComprehension
  rw [if_pos ⟨h1, h2⟩, h3]

theorem mem_symbolsComprehension :
    ∀ {l : List SymbolInfo} {out : List String}, symbolsComprehension l = .ok out →
      ∀ s ∈ out, ∃ info ∈ l, info.contractType = some "PERPETUAL" ∧
        info.quoteAsset = some "USDT" ∧ info.symbol = some s
  | [], out, h => by
    injection h with h
    subst h
    intro s hs
    cases hs
  | info :: rest, out, h => by
    rw [symbolsComprehension] at h
    split at h
    case isTrue hc =>
      rcases hsym : info.symbol with _ | v
      · rw [hsym] at h
        cases h
      · rw [hsym] at h
        rcases ht : symbolsComprehension rest with e | tail
        · rw [ht] at h
          exact Except.noConfusion h
        · rw [ht] at h
          have h2 : Except.ok (ε := PyErr) (v :: tail) = Except.ok out := h
          injection h2 with h2
          subst h2
          intro s hs
          rcases List.mem_cons.mp hs with rfl | hs
          · exact ⟨info, List.mem_cons_self info rest, hc.1, hc.2, hsym⟩
          · rcases mem_symbolsComprehension ht s hs with ⟨i, hi, p1, p2, p3⟩
            exact ⟨i, List.mem_cons_of_mem info hi, p1, p2, p3⟩
    case isFalse hc =>
      intro s hs
      rcases mem_symbolsComprehension h s hs with ⟨i, hi, p1, p2, p3⟩
      exact ⟨i, List.mem_cons_of_mem info hi, p1, p2, p3⟩

theorem fetch_symbols_ok {payload : Payload} {out : List String}
    (h : fetch_symbols payload = .ok out) :
    ∃ records syms, payload.symbols = some records ∧
      symbolsComprehension records = .ok syms ∧ out = plainSorted syms.dedup := by
  unfold fetch_symbols at h
  rcases hps : payload.symbols with _ | records
  · rw [hps] at h
    exact Except.noConfusion h
  · rw [hps] at h
    have h2 : (do
        let symbols ← symbolsComprehension records
        pure (plainSorted symbols.dedup) : Except PyErr (List String)) = .ok out := h
    rcases hc : symbolsComprehension records with e | syms
    · rw [hc] at h2
      exact Except.noConfusion h2
    · rw [hc] at h2
      have h3 : Except.ok (ε := PyErr) (plainSorted syms.dedup) = Except.ok out := h2
      injection h3 with h3
      exact ⟨records, syms, rfl, hc, h3.symm⟩

theorem fetch_symbols_nodup {payload : Payload} {out : List String}
    (h : fetch_symbols payload = .ok out) : out.Nodup := by
  rcases fetch_symbols_ok h with ⟨records, syms, _, _, rfl⟩
  exact ((List.perm_insertionSort lexLe syms.dedup).symm).nodup (List.nodup_dedup syms)

theorem mem_fetch_symbols {payload : Payload} {out : List String} {s : String}
    (h : fetch_symbols payload = .ok out) (hs : s ∈ out) :
    ∃ records, payload.symbols = some records ∧ ∃ info ∈ records,
      info.contractType = some "PERPETUAL" ∧ info.quoteAsset = some "USDT" ∧
      info.symbol = some s := by
  rcases fetch_symbols_ok h with ⟨records, syms, hps, hc, rfl⟩
  refine ⟨records, hps, ?_⟩
  have hsyms : s ∈ syms := by
    have h1 : s ∈ syms.dedup := (List.mem_insertionSort lexLe).mp hs
    exact List.mem_dedup.mp h1
  exact mem_symbolsComprehension hc s hsyms


/-! ## Shared facts about the cached snapshot and the fallback path -/

set_option maxRecDepth 8192 in
theorem cached_symbols_nonempty : ∀ s ∈ CACHED_SYMBOLS, s ≠ "" := by decide

theorem mainFallback_eq :
    mainFallback =
      .wrote ((List.insertionSort keyedLe (CACHED_SYMBOLS.map decorate)).map Prod.snd)
        true := by
  unfold mainFallback
  rw [custom_sort_eq cached_symbols_nonempty]

/-! ## The claims -/

/-- C1: for every input list of non-empty strings, both `custom_sort` (file
variant) and `sort_symbols` (console variant) succeed with the same output,
which splits into a prefix of symbols whose first character is not a digit
followed by a suffix of symbols whose first character is a digit, each group
in ascending lexicographic order. -/
theorem C1_sort_partition (values : List String) (h : ∀ s ∈ values, s ≠ "") :
    ∃ out p q,
      custom_sort values = .ok out ∧ sort_symbols values = .ok out ∧
      out = p ++ q ∧
      (∀ s ∈ p, firstIsDigit s = false) ∧ (∀ s ∈ q, firstIsDigit s = true) ∧
      p.Pairwise (· ≤ ·) ∧ q.Pairwise (· ≤ ·) := by
  have hpw : ((List.insertionSort keyedLe (values.map decorate)).map Prod.snd).Pairwise
      (fun s t => (!firstIsDigit s && firstIsDigit t) = true ∨
        (firstIsDigit s = firstIsDigit t ∧ lexLe s t)) :=
    (custom_sort_pairwise values).imp (fun h => h)
  rcases partition_of_pairwise_key hpw with ⟨p, q, hpq, hpf, hqt, hps, hqs⟩
  refine ⟨(List.insertionSort keyedLe (values.map decorate)).map Prod.snd, p, q,
    custom_sort_eq h, ?_, hpq, hpf, hqt, hps, hqs⟩
  rw [sort_symbols_eq_custom_sort]
  exact custom_sort_eq h

/-- Witness for C1 at a concrete input. -/
theorem C1_sort_partition_witness :
    (∀ s ∈ ["B1", "1B", "A"], s ≠ "") ∧
    ∃ out p q,
      custom_sort ["B1", "1B", "A"] = .ok out ∧
      sort_symbols ["B1", "1B", "A"] = .ok out ∧
      out = p ++ q ∧
      (∀ s ∈ p, firstIsDigit s = false) ∧ (∀ s ∈ q, firstIsDigit s = true) ∧
      p.Pairwise (· ≤ ·) ∧ q.Pairwise (· ≤ ·) :=
  ⟨by decide, C1_sort_partition ["B1", "1B", "A"] (by decide)⟩

/-- C2 counterexample: a fetch failure that is a JSON-decode error (part of
the claim's ProtocolError) is not absorbed by the file variant: the run
crashes with exit status 1 instead of falling back to the cache. -/
theorem C2_json_error_cex :
    main_file (.error .jsonDecodeError) = .crashed (.inl .jsonDecodeError) ∧
    file_exit (main_file (.error .jsonDecodeError)) = 1 := ⟨rfl, rfl⟩

/-- C2 (amended): when the fetch step fails with URLError (NetworkError) or
HTTPError (non-success status), the file variant logs a warning, substitutes
CACHED_SYMBOLS, still passes them through custom_sort before writing, and
exits 0; a JSON-decode failure, by contrast, propagates uncaught. -/
theorem C2_fallback_amended :
    (∀ e : FileFetchErr, e = .urlError ∨ e = .httpError →
      ∃ out, custom_sort CACHED_SYMBOLS = .ok out ∧
        main_file (.error e) = .wrote out true ∧
        file_exit (main_file (.error e)) = 0) ∧
    main_file (.error .jsonDecodeError) = .crashed (.inl .jsonDecodeError) := by
  constructor
  · intro e he
    have hm : main_file (.error e) = .wrote
        ((List.insertionSort keyedLe (CACHED_SYMBOLS.map decorate)).map Prod.snd)
        true := by
      rcases he with rfl | rfl
      · exact mainFallback_eq
      · exact mainFallback_eq
    refine ⟨_, custom_sort_eq cached_symbols_nonempty, hm, ?_⟩
    rw [hm]
    rfl
  · rfl

/-- Witness for the amended C2 at the concrete error URLError. -/
theorem C2_fallback_amended_witness :
    ∃ out, custom_sort CACHED_SYMBOLS = .ok out ∧
      main_file (.error .urlError) = .wrote out true ∧
      file_exit (main_file (.error .urlError)) = 0 :=
  C2_fallback_amended.1 .urlError (Or.inl rfl)

/-- C3: for every fetch-phase error of the console variant (transport,
HTTP status, the explicit RuntimeError on a non-200 status, or JSON
decode), the handler reports on standard error, the process exits 1, and
no symbol lines are printed; no cached fallback exists in this variant. -/
theorem C3_console_error_policy (e : ConsoleFetchErr) :
    main_console (.error e) = .failed ∧
    console_exit (main_console (.error e)) = 1 ∧
    console_stdout (main_console (.error e)) = [] ∧
    console_error_reported (main_console (.error e)) = true :=
  ⟨rfl, rfl, rfl, rfl⟩

/-- C4 counterexample: in the file variant a qualifying record with a
missing `symbol` field is not silently skipped: the comprehension raises
KeyError, which `main` does not catch, so the run crashes. -/
theorem C4_missing_symbol_cex :
    fetch_symbols missingSymbolPayload = .error .keyError ∧
    main_file (.ok missingSymbolPayload) = .crashed (.inr .keyError) ∧
    file_exit (main_file (.ok missingSymbolPayload)) = 1 := ⟨rfl, rfl, rfl⟩

/-- C4 (amended): both extractors include a record only if contractType is
PERPETUAL and quoteAsset is USDT, collecting its symbol field; a record
missing contractType or quoteAsset is silently skipped in both variants,
and a record missing symbol is silently skipped in the console variant;
but in the file variant a record that passes the filter with a missing
symbol field raises KeyError instead of being skipped. -/
theorem C4_skip_amended :
    (∀ (info : SymbolInfo) (rest : List SymbolInfo),
      info.symbol = none ∨ info.contractType = none ∨ info.quoteAsset = none →
        extractLoop (info :: rest) = extractLoop rest) ∧
    (∀ (info : SymbolInfo) (rest : List SymbolInfo),
      info.contractType = none ∨ info.quoteAsset = none →
        symbolsComprehension (info :: rest) = symbolsComprehension rest) ∧
    (∀ (info : SymbolInfo) (rest : List SymbolInfo),
      info.contractType = some "PERPETUAL" → info.quoteAsset = some "USDT" →
      info.symbol = none →
        symbolsComprehension (info :: rest) = .error .keyError) ∧
    (∀ (payload : Payload) (s : String), s ∈ extract_usdt_perpetual_symbols payload →
      ∃ info ∈ payload.symbols.getD [], info.contractType = some "PERPETUAL" ∧
        info.quoteAsset = some "USDT" ∧ info.symbol = some s) ∧
    (∀ (payload : Payload) (out : List String) (s : String),
      fetch_symbols payload = .ok out → s ∈ out →
      ∃ records, payload.symbols = some records ∧ ∃ info ∈ records,
        info.contractType = some "PERPETUAL" ∧ info.quoteAsset = some "USDT" ∧
        info.symbol = some s) := by
  refine ⟨?_, ?_, ?_, ?_, ?_⟩
  · intro info rest h
    exact extractLoop_skip rest h
  · intro info rest h
    exact symbolsComprehension_skip rest h
  · intro info rest h1 h2 h3
    exact symbolsComprehension_keyError rest h1 h2 h3
  · intro payload s hs
    rcases mem_extract hs with ⟨info, hi, p1, p2, p3, _⟩
    exact ⟨info, hi, p1, p2, p3⟩
  · intro payload out s h hs
    exact mem_fetch_symbols h hs

/-- Witness for the amended C4: a record with a missing quoteAsset is
skipped by the file variant's comprehension. -/
theorem C4_skip_amended_witness :
    symbolsComprehension [⟨some "BTCUSDT", some "PERPETUAL", none⟩] =
      symbolsComprehension [] :=
  C4_skip_amended.2.1 ⟨some "BTCUSDT", some "PERPETUAL", none⟩ [] (Or.inr rfl)

/-- C5: on a network failure (URLError or HTTPError) the file variant
writes exactly custom_sort applied to CACHED_SYMBOLS and exits 0. -/
theorem C5_network_failure_output (e : FileFetchErr)
    (he : e = .urlError ∨ e = .httpError) :
    ∃ out, custom_sort CACHED_SYMBOLS = .ok out ∧
      main_file (.error e) = .wrote out true ∧
      file_exit (main_file (.error e)) = 0 := by
  have hm : main_file (.error e) = .wrote
      ((List.insertionSort keyedLe (CACHED_SYMBOLS.map decorate)).map Prod.snd)
      true := by
    rcases he with rfl | rfl
    · exact mainFallback_eq
    · exact mainFallback_eq
  refine ⟨_, custom_sort_eq cached_symbols_nonempty, hm, ?_⟩
  rw [hm]
  rfl

/-- Witness for C5 at the concrete error URLError. -/
theorem C5_network_failure_output_witness :
    ((.urlError : FileFetchErr) = .urlError ∨ (.urlError : FileFetchErr) = .httpError) ∧
    ∃ out, custom_sort CACHED_SYMBOLS = .ok out ∧
      main_file (.error .urlError) = .wrote out true ∧
      file_exit (main_file (.error .urlError)) = 0 :=
  ⟨Or.inl rfl, C5_network_failure_output .urlError (Or.inl rfl)⟩

/-- C6: the variants diverge on deduplication: the file variant's
fetch_symbols never returns duplicates (set collapse before sorting), the
console variant's extractor is exactly an order- and
multiplicity-preserving filterMap over the records, and on a payload
listing BTCUSDT twice the two outputs differ accordingly. -/
theorem C6_dedup_divergence :
    (∀ (payload : Payload) (out : List String),
      fetch_symbols payload = .ok out → out.Nodup) ∧
    (∀ payload : Payload,
      extract_usdt_perpetual_symbols payload =
        (payload.symbols.getD []).filterMap qualifies) ∧
    extract_usdt_perpetual_symbols duplicatePayload = ["BTCUSDT", "BTCUSDT"] ∧
    fetch_symbols duplicatePayload = .ok ["BTCUSDT"] :=
  ⟨fun _ _ h => fetch_symbols_nodup h,
   fun _ => extractLoop_eq_filterMap _,
   rfl, rfl⟩

/-- Witness for C6's first conjunct at a concrete payload. -/
theorem C6_dedup_divergence_witness : List.Nodup ["BTCUSDT"] :=
  C6_dedup_divergence.1 duplicatePayload ["BTCUSDT"] rfl

/-- C7: on lists of non-empty strings the sort is idempotent for both
variants: sorting its own output returns it unchanged. -/
theorem C7_sort_idempotent (values : List String) (h : ∀ s ∈ values, s ≠ "") :
    ∃ out, custom_sort values = .ok out ∧ custom_sort out = .ok out ∧
      sort_symbols values = .ok out ∧ sort_symbols out = .ok out := by
  refine ⟨(List.insertionSort keyedLe (values.map decorate)).map Prod.snd,
    custom_sort_eq h, custom_sort_fixed h, ?_, ?_⟩
  · rw [sort_symbols_eq_custom_sort]
    exact custom_sort_eq h
  · rw [sort_symbols_eq_custom_sort]
    exact custom_sort_fixed h

/-- Witness for C7 at a concrete input with a duplicate. -/
theorem C7_sort_idempotent_witness :
    (∀ s ∈ ["B1", "1B", "A", "A"], s ≠ "") ∧
    ∃ out, custom_sort ["B1", "1B", "A", "A"] = .ok out ∧
      custom_sort out = .ok out ∧
      sort_symbols ["B1", "1B", "A", "A"] = .ok out ∧ sort_symbols out = .ok out :=
  ⟨by decide, C7_sort_idempotent ["B1", "1B", "A", "A"] (by decide)⟩

/-- C8: on the spec's example payload, extraction followed by sorting gives
exactly the list BTCUSDT, 1000PEPEUSDT in both variants. -/
theorem C8_end_to_end :
    sort_symbols (extract_usdt_perpetual_symbols examplePayload) =
      .ok ["BTCUSDT", "1000PEPEUSDT"] ∧
    (fetch_symbols examplePayload).bind custom_sort =
      .ok ["BTCUSDT", "1000PEPEUSDT"] := ⟨rfl, rfl⟩

/-- C9: under the precondition that all inputs are non-empty, the key
computation never indexes into an empty string, so both sorts are total. -/
theorem C9_sort_total (values : List String) (h : ∀ s ∈ values, s ≠ "") :
    ∃ out, custom_sort values = .ok out ∧ sort_symbols values = .ok out := by
  refine ⟨_, custom_sort_eq h, ?_⟩
  rw [sort_symbols_eq_custom_sort]
  exact custom_sort_eq h

/-- Witness for C9 at a concrete input. -/
theorem C9_sort_total_witness :
    (∀ s ∈ ["X", "9Y"], s ≠ "") ∧
    ∃ out, custom_sort ["X", "9Y"] = .ok out ∧ sort_symbols ["X", "9Y"] = .ok out :=
  ⟨by decide, C9_sort_total ["X", "9Y"] (by decide)⟩

/-- C10: every string the console extractor returns is non-empty (falsy
symbol values are skipped), hence sort_symbols never fails on the
extractor's output. -/
theorem C10_extract_nonempty (payload : Payload) :
    (∀ s ∈ extract_usdt_perpetual_symbols payload, s ≠ "") ∧
    ∃ out, sort_symbols (extract_usdt_perpetual_symbols payload) = .ok out := by
  have hne : ∀ s ∈ extract_usdt_perpetual_symbols payload, s ≠ "" := by
    intro s hs
    rcases mem_extract hs with ⟨_, _, _, _, _, h4⟩
    exact h4
  refine ⟨hne, ⟨(List.insertionSort keyedLe
    ((extract_usdt_perpetual_symbols payload).map decorate)).map Prod.snd, ?_⟩⟩
  rw [sort_symbols_eq_custom_sort]
  exact custom_sort_eq hne

/-- Witness for C10's non-emptiness conjunct at a concrete payload. -/
theorem C10_extract_nonempty_witness :
    "BTCUSDT" ∈ extract_usdt_perpetual_symbols examplePayload ∧ "BTCUSDT" ≠ "" :=
  ⟨by decide, (C10_extract_nonempty examplePayload).1 "BTCUSDT" (by decide)⟩


end SpreadFut
